import Mathlib

/-!
Verification of the AI-Research-Assistant repository.

The Python sources are shallowly embedded: every definition below is a direct
translation of a function of the repository (file and line numbers are given in
the doc comments).  Code that calls the hosted LLM or the hosted search API is
modelled by explicit oracle functions supplied as arguments, so that each
theorem quantifies over every possible behaviour of the external services.
-/

/-! ## Python string primitives

The repository manipulates Python strings with `startswith`, `replace`,
`strip`, `in`, `split(sep, 1)` and `str.isalnum`.  These are modelled here on
`List Char` with structural recursion so that every definition evaluates
inside the kernel.  `replace` uses a fuel argument bounded by the length of
the string; the fuel never runs out for the inputs the repository passes.
-/

/-- Python `s.startswith(p)`. -/
def pyStartsWith (s p : String) : Bool :=
  p.data.isPrefixOf s.data

/-- One step of Python `s.replace(pat, repl)` (replace every occurrence,
leftmost first, non-overlapping), on character lists, with fuel. -/
def pyReplaceAux (pat repl : List Char) : Nat → List Char → List Char
  | 0, s => s
  | _ + 1, [] => []
  | fuel + 1, c :: cs =>
    if pat ≠ [] ∧ pat.isPrefixOf (c :: cs) then
      repl ++ pyReplaceAux pat repl fuel ((c :: cs).drop pat.length)
    else
      c :: pyReplaceAux pat repl fuel cs

/-- Python `s.replace(pat, repl)` for a non-empty pattern. -/
def pyReplace (s pat repl : String) : String :=
  ⟨pyReplaceAux pat.data repl.data s.data.length s.data⟩

/-- The whitespace characters removed by Python `str.strip()` (ASCII range). -/
def pyIsSpace (c : Char) : Bool :=
  c == ' ' || c == '\t' || c == '\n' || c == '\r' || c == '\x0b' || c == '\x0c'

/-- Python `s.strip()`: drop whitespace from both ends. -/
def pyStrip (s : String) : String :=
  ⟨((s.data.dropWhile pyIsSpace).reverse.dropWhile pyIsSpace).reverse⟩

/-- Helper for Python `sub in s`: does `sub` occur (contiguously) in `s`? -/
def containsSub : List Char → List Char → Bool
  | _, [] => true
  | [], _ :: _ => false
  | c :: cs, p :: ps => (p :: ps).isPrefixOf (c :: cs) || containsSub cs (p :: ps)

/-- Python `sub in s`. -/
def pyIn (sub s : String) : Bool :=
  containsSub s.data sub.data

/-- First occurrence split on character lists: returns the part before the
first occurrence of `sep` and the part after it, or `none` when `sep` does
not occur. -/
def splitFirstAux (sep : List Char) : List Char → Option (List Char × List Char)
  | [] => if sep.isEmpty then some ([], []) else none
  | c :: cs =>
    if sep.isPrefixOf (c :: cs) then
      some ([], (c :: cs).drop sep.length)
    else
      match splitFirstAux sep cs with
      | some (pre, post) => some (c :: pre, post)
      | none => none

/-- Python `s.split(sep, 1)` for a non-empty separator, returned as an
optional pair: `some (before, after)` when `sep` occurs, `none` otherwise. -/
def pySplit1 (s sep : String) : Option (String × String) :=
  (splitFirstAux sep.data s.data).map (fun p => (⟨p.1⟩, ⟨p.2⟩))

/-! ## Data model (src/models.py) -/

/-- `models.py` lines 8-13: the four text fields of an analyst persona. -/
structure Analyst where
  affiliation : String
  name : String
  role : String
  description : String
deriving DecidableEq, Repr

/-- `models.py` lines 15-23: the `persona` property. -/
def Analyst.persona (a : Analyst) : String :=
  "Name: " ++ a.name ++ "\n" ++
  "Role: " ++ a.role ++ "\n" ++
  "Affiliation: " ++ a.affiliation ++ "\n" ++
  "Description: " ++ a.description ++ "\n"

/-- The rendering described by the specification: the four fields as a
labeled multi-line block, one `Label: value` line per field. -/
def personaSpecRendering (a : Analyst) : String :=
  String.join ((["Name: " ++ a.name, "Role: " ++ a.role,
      "Affiliation: " ++ a.affiliation,
      "Description: " ++ a.description].map (fun line => line ++ "\n")))

/-! ## Filename sanitization (src/utils.py lines 165-175) -/

/-- Python `filename.replace(' ', '_')` acts characterwise for the
one-character pattern. -/
def spaceToUnderscore (c : Char) : Char :=
  if c = ' ' then '_' else c

/-- The character class kept by `sanitize_filename`:
`c.isalnum() or c in ('_', '-')` (ASCII range of `str.isalnum`). -/
def isAllowedFilenameChar (c : Char) : Bool :=
  c.isAlphanum || c == '_' || c == '-'

/-- `utils.py` lines 165-175: replace spaces with underscores, keep only
alphanumeric, underscore and hyphen characters, then truncate to
`maxLength` characters when longer. -/
def sanitize_filename (filename : String) (maxLength : Nat := 50) : String :=
  let safeName := filename.data.map spaceToUnderscore
  let filtered := safeName.filter isAllowedFilenameChar
  let truncated := if filtered.length > maxLength then filtered.take maxLength else filtered
  ⟨truncated⟩

/-! ## Report compilation (src/agents.py lines 228-254) -/

/-- `agents.py` lines 228-254, `ReportWriter._compile_report`:
strip the insights heading by replacing every occurrence of the literal
`## Insights` and stripping whitespace (only when the content starts with
that heading), split a sources tail off at the first occurrence of the
marker `"\n## Sources\n"` guarded by a `"## Sources" in content` check
(sources absent when the split fails), join the three parts with
`"\n\n---\n\n"`, and append the sources tail when captured. -/
def compile_report (introduction content conclusion : String) : String :=
  let content1 :=
    if pyStartsWith content "## Insights" then
      pyStrip (pyReplace content "## Insights" "")
    else content
  let split : String × Option String :=
    if pyIn "## Sources" content1 then
      match pySplit1 content1 "\n## Sources\n" with
      | some (c, s) => (c, some s)
      | none => (content1, none)
    else (content1, none)
  let finalReport := introduction ++ "\n\n---\n\n" ++ split.1 ++ "\n\n---\n\n" ++ conclusion
  match split.2 with
  | some s => finalReport ++ "\n\n## Sources\n" ++ s
  | none => finalReport

/-- The compiler as the claim words it: strip only a LEADING `## Insights`
heading (plus surrounding whitespace), split the sources tail at the
marker, join, append the tail.  Compared against `compile_report`. -/
def compileReportClaimC3 (introduction content conclusion : String) : String :=
  let content1 :=
    if pyStartsWith content "## Insights" then
      pyStrip (content.drop "## Insights".length)
    else content
  match pySplit1 content1 "\n## Sources\n" with
  | some (c, s) =>
      introduction ++ "\n\n---\n\n" ++ c ++ "\n\n---\n\n" ++ conclusion ++
        "\n\n## Sources\n" ++ s
  | none => introduction ++ "\n\n---\n\n" ++ content1 ++ "\n\n---\n\n" ++ conclusion

/-- The compiler as amended: every occurrence of `## Insights` is removed
(when the content starts with that heading) and the result is stripped of
surrounding whitespace; the rest is as the claim words it. -/
def compileReportAmendedC3 (introduction content conclusion : String) : String :=
  let content1 :=
    if pyStartsWith content "## Insights" then
      pyStrip (pyReplace content "## Insights" "")
    else content
  match (if pyIn "## Sources" content1 then pySplit1 content1 "\n## Sources\n" else none) with
  | some (c, s) =>
      introduction ++ "\n\n---\n\n" ++ c ++ "\n\n---\n\n" ++ conclusion ++
        "\n\n## Sources\n" ++ s
  | none => introduction ++ "\n\n---\n\n" ++ content1 ++ "\n\n---\n\n" ++ conclusion

/-! ## Search service (src/services.py lines 60-106)

The hosted search tool (`self.search_tool.invoke(query)`) is modelled as an
oracle of type `String → Except String (List SearchResult)`; an `error`
value models the tool raising an exception with that text. -/

/-- A search result record: `services.py` line 103 reads the `url` and
`content` fields of each result. -/
structure SearchResult where
  url : String
  content : String
deriving DecidableEq, Repr

/-- `services.py` lines 85-94, `SearchService.search`: invoke the tool and
return its results; on any exception log and return the empty list. -/
def searchServiceSearch (tool : String → Except String (List SearchResult))
    (query : String) : List SearchResult :=
  match tool query with
  | Except.ok results => results
  | Except.error _ => []

/-- `services.py` lines 96-106, `SearchService.format_search_results`:
empty input renders to the empty string; otherwise each result becomes a
pseudo-document block and the blocks are joined with `"\n\n---\n\n"`. -/
def format_search_results (results : List SearchResult) : String :=
  if results.isEmpty then ""
  else
    String.intercalate "\n\n---\n\n"
      (results.map (fun doc =>
        "<Document href=\"" ++ doc.url ++ "\"/>\n" ++ doc.content ++ "\n</Document>"))

/-! ## Interview agent (src/agents.py lines 57-157)

The three LLM calls of the agent (question generation, search-query
extraction, answer generation) and the section-writer call are modelled as
oracle functions bundled in `InterviewEnv`; the underlying search tool is
the oracle of `searchServiceSearch`.  The theorems quantify over every
oracle, hence over every possible LLM behaviour. -/

/-- A transcript message: text content plus the speaker tag that
`_generate_question` / `_generate_answer` assign (`analyst` / `expert`). -/
structure ChatMsg where
  content : String
  name : Option String
deriving DecidableEq, Repr

/-- Oracles for the external calls made during one interview. -/
structure InterviewEnv where
  /-- Reply text of the LLM call in `_generate_question` (lines 108-116). -/
  genQuestion : Analyst → List ChatMsg → String
  /-- The `search_query` field extracted in `_generate_search_query`
  (lines 118-125). -/
  genSearchQuery : List ChatMsg → String
  /-- The hosted search tool behind `SearchService.search`. -/
  searchTool : String → Except String (List SearchResult)
  /-- Reply text of the LLM call in `_generate_answer` (lines 127-141). -/
  genAnswer : Analyst → List ChatMsg → String → String
  /-- Reply text of the section-writer call in `_write_section`
  (lines 143-157), as a function of the analyst and the joined context. -/
  sectionLLM : Analyst → String → String

/-- Calls recorded while the interview loop runs, used to state which
external requests are issued. -/
inductive InterviewEvent where
  | question (content : String)
  | searchQuery (query : String)
  | searchCall (query : String)
  | answer (content : String)
deriving DecidableEq, Repr

/-- `agents.py` line 82: the literal early-termination phrase. -/
def thankYouPhrase : String := "Thank you so much for your help"

/-- `agents.py` line 73: the opening human message of every interview. -/
def openingMessage (topic : String) : ChatMsg :=
  { content := "So you said you were writing an article on " ++ topic ++ "?", name := none }

/-- `agents.py` lines 76-101: the body of `conduct_interview`.  Each
iteration generates a question (tagged `analyst`), stops when the question
contains `thankYouPhrase`, otherwise extracts a search query, runs the
search, and on non-empty formatted results appends them to the context and
appends an expert answer to the transcript; on empty results only a warning
is logged.  Returns the final transcript, the accumulated context and the
list of external calls issued. -/
def interviewLoop (env : InterviewEnv) (analyst : Analyst) :
    Nat → List ChatMsg → List String → List ChatMsg × List String × List InterviewEvent
  | 0, messages, context => (messages, context, [])
  | turns + 1, messages, context =>
    let question : ChatMsg := { content := env.genQuestion analyst messages, name := some "analyst" }
    let messages1 := messages ++ [question]
    if pyIn thankYouPhrase question.content then
      (messages1, context, [InterviewEvent.question question.content])
    else
      let searchQuery := env.genSearchQuery messages1
      let searchResults := searchServiceSearch env.searchTool searchQuery
      let formattedResults := format_search_results searchResults
      if formattedResults ≠ "" then
        let answer : ChatMsg :=
          { content := env.genAnswer analyst messages1 formattedResults, name := some "expert" }
        let rest := interviewLoop env analyst turns (messages1 ++ [answer]) (context ++ [formattedResults])
        (rest.1, rest.2.1,
          InterviewEvent.question question.content :: InterviewEvent.searchQuery searchQuery ::
            InterviewEvent.searchCall searchQuery :: InterviewEvent.answer answer.content :: rest.2.2)
      else
        let rest := interviewLoop env analyst turns messages1 context
        (rest.1, rest.2.1,
          InterviewEvent.question question.content :: InterviewEvent.searchQuery searchQuery ::
            InterviewEvent.searchCall searchQuery :: rest.2.2)

/-- `agents.py` lines 64-106, `InterviewAgent.conduct_interview`: seed the
transcript with the opening message, run the loop for at most `maxTurns`
turns, then join the accumulated context with blank lines and issue the
section-writer call.  Returns the section text and the calls issued by the
loop. -/
def conduct_interview (env : InterviewEnv) (analyst : Analyst) (topic : String)
    (maxTurns : Nat) : String × List InterviewEvent :=
  let result := interviewLoop env analyst maxTurns [openingMessage topic] []
  (env.sectionLLM analyst (String.intercalate "\n\n" result.2.1), result.2.2)

/-! ## Sequential workflow (src/backend.py lines 28-171)

One interview of `ResearchWorkflow` is modelled as an oracle
`interview : Analyst → Except String String` (`error e` models
`conduct_interview` raising an exception whose text is `e`); the optional
callbacks of `WorkflowCallbacks` are oracles returning `Except String Unit`
(`error e` models the callback raising, `ok ()` covers both a callback that
returns normally and an absent callback).  The analyst generator is
abstracted by handing the generated analyst list to `runResearchSeq`
directly; the `on_error` callback only relays the message of an already
propagating failure and is not modelled. -/

/-- Oracles for one sequential workflow run. -/
structure SeqEnv where
  interview : Analyst → Except String String
  onProgress : Nat → String → Except String Unit
  onAnalystCreated : List Analyst → Except String Unit
  onInterviewComplete : String → String → Except String Unit
  onSectionComplete : String → Except String Unit
  writeReport : List String → String → Except String String

/-- `backend.py` line 149: the placeholder section appended when an
iteration of the interview loop raises. -/
def interviewErrorSection (a : Analyst) (e : String) : String :=
  "## Error\nInterview with " ++ a.name ++ " failed: " ++ e

/-- `backend.py` line 128: the progress message of interview `i`. -/
def progressMessage (a : Analyst) (i total : Nat) : String :=
  "Interviewing " ++ a.name ++ "... (" ++ toString (i + 1) ++ "/" ++ toString total ++ ")"

/-- `backend.py` lines 121-149: the body of one iteration of the sequential
interview loop — everything inside the per-analyst `try`.  The progress
callback, the interview, and the two completion callbacks run in order; the
first failure is caught and appends the error placeholder (after a
successful interview the section has already been appended, so a failing
callback leaves both the section and the placeholder). -/
def seqStepSections (env : SeqEnv) (total i : Nat) (a : Analyst) : List String :=
  match env.onProgress (30 + i * 40 / total) (progressMessage a i total) with
  | Except.error e => [interviewErrorSection a e]
  | Except.ok _ =>
    match env.interview a with
    | Except.error e => [interviewErrorSection a e]
    | Except.ok s =>
      match env.onInterviewComplete a.name s with
      | Except.error e => [s, interviewErrorSection a e]
      | Except.ok _ =>
        match env.onSectionComplete s with
        | Except.error e => [s, interviewErrorSection a e]
        | Except.ok _ => [s]

/-- The sequential loop from index `i` on: sections plus the progress
values delivered to the progress callback (one per iteration). -/
def conductInterviewsSeqAux (env : SeqEnv) (total : Nat) :
    Nat → List Analyst → List String × List Nat
  | _, [] => ([], [])
  | i, a :: rest =>
    let tail := conductInterviewsSeqAux env total (i + 1) rest
    (seqStepSections env total i a ++ tail.1, (30 + i * 40 / total) :: tail.2)

/-- `backend.py` lines 110-151, `ResearchWorkflow._conduct_interviews`. -/
def conductInterviewsSeq (env : SeqEnv) (analysts : List Analyst) : List String × List Nat :=
  conductInterviewsSeqAux env analysts.length 0 analysts

/-- `backend.py` lines 40-91, `ResearchWorkflow.run_research`, with the
generated analysts given: the fixed progress checkpoints 10/25/30/70/85/100
around the phases, the interview loop, the report-writer call, and the
top-level `try` that lets any uncaught failure abort the run.  Returns the
outcome (analysts, sections and final report on success, the propagated
failure otherwise) together with the progress values delivered. -/
def runResearchSeq (env : SeqEnv) (analysts : List Analyst) (topic : String) :
    Except String (List Analyst × List String × String) × List Nat :=
  match env.onProgress 10 "Generating research analysts..." with
  | Except.error e => (Except.error e, [10])
  | Except.ok _ =>
    match env.onAnalystCreated analysts with
    | Except.error e => (Except.error e, [10])
    | Except.ok _ =>
      match env.onProgress 25 ("Generated " ++ toString analysts.length ++ " analysts") with
      | Except.error e => (Except.error e, [10, 25])
      | Except.ok _ =>
        match env.onProgress 30 "Starting research interviews..." with
        | Except.error e => (Except.error e, [10, 25, 30])
        | Except.ok _ =>
          let interviews := conductInterviewsSeq env analysts
          match env.onProgress 70 "All interviews completed" with
          | Except.error e => (Except.error e, [10, 25, 30] ++ interviews.2 ++ [70])
          | Except.ok _ =>
            match env.onProgress 85 "Generating final report..." with
            | Except.error e => (Except.error e, [10, 25, 30] ++ interviews.2 ++ [70, 85])
            | Except.ok _ =>
              match env.writeReport interviews.1 topic with
              | Except.error e => (Except.error e, [10, 25, 30] ++ interviews.2 ++ [70, 85])
              | Except.ok report =>
                match env.onProgress 100 "Research completed successfully!" with
                | Except.error e => (Except.error e, [10, 25, 30] ++ interviews.2 ++ [70, 85, 100])
                | Except.ok _ =>
                  (Except.ok (analysts, interviews.1, report),
                    [10, 25, 30] ++ interviews.2 ++ [70, 85, 100])

/-! ## Parallel workflow (src/backend.py lines 174-233)

`ParallelResearchWorkflow._conduct_interviews` submits one task per analyst
and fills a slot array indexed by the original analyst index as futures
complete; the completion order is an arbitrary list of indices (for a real
executor, a permutation of `range n` — each submitted future is yielded by
`as_completed` exactly once). -/

/-- The value stored into `sections[index]` when the future of `analyst`
completes: its section on success, the error placeholder when
`future.result()` raised (lines 209-229). -/
def interviewOutcomeSection (interview : Analyst → Except String String) (a : Analyst) : String :=
  match interview a with
  | Except.ok s => s
  | Except.error e => interviewErrorSection a e

/-- Processing one completed future: store the outcome of analyst `idx`
into slot `idx` (lines 205-229). -/
def applyCompletion (interview : Analyst → Except String String) (analysts : List Analyst)
    (slots : List (Option String)) (idx : Nat) : List (Option String) :=
  match analysts[idx]? with
  | some a => slots.set idx (some (interviewOutcomeSection interview a))
  | none => slots

/-- The slot array after all completions: starts as `[None] * len(analysts)`
(line 189) and is filled in completion order. -/
def parallelConductSlots (interview : Analyst → Except String String)
    (analysts : List Analyst) (order : List Nat) : List (Option String) :=
  order.foldl (applyCompletion interview analysts) (List.replicate analysts.length none)

/-- `backend.py` lines 181-233, `ParallelResearchWorkflow._conduct_interviews`:
the filled slots with the unset (`None`) slots filtered out (line 233). -/
def parallelConductInterviews (interview : Analyst → Except String String)
    (analysts : List Analyst) (order : List Nat) : List String :=
  (parallelConductSlots interview analysts order).filterMap id

/-- `backend.py` lines 77-84 with lines 232-233: what a parallel run hands
back to the caller — the analyst list unchanged, and the section list with
unset slots dropped. -/
def parallelRunHandBack (interview : Analyst → Except String String)
    (analysts : List Analyst) (order : List Nat) : List Analyst × List String :=
  (analysts, parallelConductInterviews interview analysts order)

/-- The hand-back as claim C7 words it: BOTH lists are filtered to drop
every unset slot (an analyst whose slot is unset is dropped together with
the slot). -/
def handBackPerClaimC7 (analysts : List Analyst) (slots : List (Option String)) :
    List Analyst × List String :=
  ((analysts.zip slots).filterMap (fun p => p.2.map (fun _ => p.1)), slots.filterMap id)

/-! ## Concrete instances used by the witnesses -/

/-- A concrete interview environment whose analyst immediately thanks the
expert; used as the C4 witness. -/
def envThanks : InterviewEnv :=
  { genQuestion := fun _ _ => "Thank you so much for your help"
    genSearchQuery := fun _ => "q"
    searchTool := fun _ => Except.ok []
    genAnswer := fun _ _ _ => "ans"
    sectionLLM := fun _ _ => "SEC" }

/-- A concrete analyst record reused by the workflow witnesses. -/
def analystAda : Analyst :=
  { affiliation := "MIT", name := "Ada", role := "Safety", description := "Risk" }

/-- A concrete environment whose search tool always raises; used as the C5
witness. -/
def envSearchDown : InterviewEnv :=
  { genQuestion := fun _ _ => "Q?"
    genSearchQuery := fun _ => "q"
    searchTool := fun _ => Except.error "down"
    genAnswer := fun _ _ _ => "ans"
    sectionLLM := fun _ _ => "SEC" }

/-- An analyst whose interview raises; used by the workflow witnesses. -/
def analystBoom : Analyst :=
  { affiliation := "CMU", name := "Boom", role := "Critic", description := "Edge" }

/-- A third analyst; used by the workflow witnesses. -/
def analystCarl : Analyst :=
  { affiliation := "ETH", name := "Carl", role := "Econ", description := "Cost" }

/-- Interview oracle that fails exactly on `analystBoom`. -/
def interviewOneFailure : Analyst → Except String String :=
  fun a => if a.name = "Boom" then Except.error "boom" else Except.ok ("S-" ++ a.name)

/-- Interview oracle that always succeeds; used for the C7 counterexample. -/
def interviewAlwaysOk : Analyst → Except String String :=
  fun _ => Except.ok "sec"

/-- All-success environment for the C6 witness. -/
def envSeqAllOk : SeqEnv :=
  { interview := fun a => Except.ok ("S-" ++ a.name)
    onProgress := fun _ _ => Except.ok ()
    onAnalystCreated := fun _ => Except.ok ()
    onInterviewComplete := fun _ _ => Except.ok ()
    onSectionComplete := fun _ => Except.ok ()
    writeReport := fun _ _ => Except.ok "REPORT" }

/-- Environment with exactly one failing interview; used as the C1
witness. -/
def envSeqOneFailure : SeqEnv :=
  { interview := interviewOneFailure
    onProgress := fun _ _ => Except.ok ()
    onAnalystCreated := fun _ => Except.ok ()
    onInterviewComplete := fun _ _ => Except.ok ()
    onSectionComplete := fun _ => Except.ok ()
    writeReport := fun secs _ => Except.ok ("R:" ++ String.intercalate "|" secs) }

/-- Environment whose interview-complete callback raises; used as the C10
witness. -/
def envCallbackRaises : SeqEnv :=
  { interview := fun a => Except.ok ("S-" ++ a.name)
    onProgress := fun _ _ => Except.ok ()
    onAnalystCreated := fun _ => Except.ok ()
    onInterviewComplete := fun _ _ => Except.error "cb"
    onSectionComplete := fun _ => Except.ok ()
    writeReport := fun _ _ => Except.ok "R" }

/-! ## Helper lemmas -/

/-- A character kept by the sanitizer is not a space. -/
lemma isAllowedFilenameChar_ne_space {c : Char} (h : isAllowedFilenameChar c = true) : c ≠ ' ' := by
  intro he
  subst he
  simp [isAllowedFilenameChar, Char.isAlphanum, Char.isAlpha, Char.isUpper, Char.isLower,
    Char.isDigit] at h

/-- Every character of a sanitized filename is in the allowed class. -/
lemma sanitize_filename_mem_allowed (s : String) (m : Nat) :
    ∀ c ∈ (sanitize_filename s m).data, isAllowedFilenameChar c = true := by
  intro c hc
  unfold sanitize_filename at hc
  simp only at hc
  rcases Decidable.em
      (((s.data.map spaceToUnderscore).filter isAllowedFilenameChar).length > m) with h | h
  · rw [if_pos h] at hc
    have := List.take_subset m _ hc
    exact (List.mem_filter.mp this).2
  · rw [if_neg h] at hc
    exact (List.mem_filter.mp hc).2

/-- The sanitized filename never exceeds the length bound. -/
lemma sanitize_filename_data_length (s : String) (m : Nat) :
    (sanitize_filename s m).data.length ≤ m := by
  unfold sanitize_filename
  simp only
  rcases Decidable.em
      (((s.data.map spaceToUnderscore).filter isAllowedFilenameChar).length > m) with h | h
  · rw [if_pos h]
    simp [List.length_take]
  · rw [if_neg h]
    simpa using Nat.le_of_not_lt h

/-! ## Claim C9 — sanitize_filename -/

/-- C9: for every input string, `sanitize_filename` returns a string whose
characters are all alphanumeric, underscore or hyphen (spaces having been
mapped to underscores, so no space survives), whose length is at most
`maxLength` (default 50), and the function is idempotent: applying it again
to its own output with the same `maxLength` returns that output unchanged.
The concrete rendering of the sample input is included. -/
theorem sanitize_filename_allowed_bounded_idempotent :
    (∀ (s : String) (m : Nat), ∀ c ∈ (sanitize_filename s m).data,
        isAllowedFilenameChar c = true) ∧
    (∀ (s : String) (m : Nat), ∀ c ∈ (sanitize_filename s m).data, c ≠ ' ') ∧
    (∀ (s : String) (m : Nat), (sanitize_filename s m).length ≤ m) ∧
    (∀ (s : String) (m : Nat),
        sanitize_filename (sanitize_filename s m) m = sanitize_filename s m) ∧
    sanitize_filename "AI & Robots: 2024!!" = "AI__Robots_2024" := by
  refine ⟨sanitize_filename_mem_allowed, ?_, ?_, ?_, by decide⟩
  · intro s m c hc
    exact isAllowedFilenameChar_ne_space (sanitize_filename_mem_allowed s m c hc)
  · intro s m
    exact sanitize_filename_data_length s m
  · intro s m
    have hall := sanitize_filename_mem_allowed s m
    have hmap : (sanitize_filename s m).data.map spaceToUnderscore
        = (sanitize_filename s m).data := by
      conv_rhs => rw [← List.map_id (sanitize_filename s m).data]
      refine List.map_congr_left ?_
      intro c hc
      simp [spaceToUnderscore, isAllowedFilenameChar_ne_space (hall c hc)]
    have hfilter : (sanitize_filename s m).data.filter isAllowedFilenameChar
        = (sanitize_filename s m).data := List.filter_eq_self.mpr hall
    have hlen := sanitize_filename_data_length s m
    conv_lhs => rw [sanitize_filename]
    simp only [hmap, hfilter]
    rw [if_neg (by omega)]

/-! ## Claim C8 — persona rendering -/

/-- C8: the persona of an analyst record is exactly the labeled four-line
block of the specification, and it is byte-identical for records with equal
fields (hence deterministic). -/
theorem persona_rendering_exact (a b : Analyst)
    (hn : a.name = b.name) (hr : a.role = b.role)
    (ha : a.affiliation = b.affiliation) (hd : a.description = b.description) :
    a.persona = personaSpecRendering a ∧ a.persona = b.persona := by
  constructor
  · apply String.ext
    simp [Analyst.persona, personaSpecRendering, String.join, String.data_append,
      List.append_assoc]
  · simp [Analyst.persona, hn, hr, ha, hd]

/-- Witness for C8 at a concrete record. -/
theorem persona_rendering_exact_witness :
    ({ affiliation := "MIT", name := "Ada", role := "Safety", description := "Risk" } : Analyst).persona
        = personaSpecRendering
          { affiliation := "MIT", name := "Ada", role := "Safety", description := "Risk" } ∧
    ({ affiliation := "MIT", name := "Ada", role := "Safety", description := "Risk" } : Analyst).persona
        = ({ affiliation := "MIT", name := "Ada", role := "Safety", description := "Risk" } : Analyst).persona :=
  persona_rendering_exact _ _ rfl rfl rfl rfl

/-! ## Claim C3 — report compilation -/

/-- Counterexample to C3 as stated: the code does not strip only a LEADING
`## Insights` heading — `content.replace` removes EVERY occurrence of the
literal.  On a content block that starts with the heading and mentions the
literal again in its body, the compiled report differs from the one the
claim describes (the code also deletes the inner occurrence). -/
theorem compile_report_not_leading_strip_only :
    compile_report "I" "## Insights\nBody mentions ## Insights here\n## Sources\nS" "C"
      ≠ compileReportClaimC3 "I" "## Insights\nBody mentions ## Insights here\n## Sources\nS" "C"
    ∧ compile_report "I" "## Insights\nBody mentions ## Insights here\n## Sources\nS" "C"
      = "I\n\n---\n\nBody mentions  here\n\n---\n\nC\n\n## Sources\nS" := by
  constructor
  · decide
  · decide

/-- C3 as amended: the concrete example of the claim holds, and in general
the compiler removes every occurrence of `## Insights` (when content starts
with that heading) and trims surrounding whitespace, splits the sources
tail at the first occurrence of the literal marker (sources absent when the
split fails), joins introduction, body and conclusion with the separator,
and appends the sources block when one was captured. -/
theorem compile_report_amended_spec :
    compile_report "I." "## Insights\nBody\n## Sources\nSrc1" "C."
      = "I.\n\n---\n\nBody\n\n---\n\nC.\n\n## Sources\nSrc1" ∧
    ∀ introduction content conclusion : String,
      compile_report introduction content conclusion
        = compileReportAmendedC3 introduction content conclusion := by
  refine ⟨by decide, ?_⟩
  intro introduction content conclusion
  unfold compile_report compileReportAmendedC3
  by_cases h2 : pyIn "## Sources"
      (if pyStartsWith content "## Insights" then
        pyStrip (pyReplace content "## Insights" "") else content)
  · simp only [h2, if_true]
    rcases h3 : pySplit1
        (if pyStartsWith content "## Insights" then
          pyStrip (pyReplace content "## Insights" "") else content) "\n## Sources\n" with
      _ | ⟨c, s⟩
    · simp [h3]
    · simp [h3]
  · simp [h2]

/-! ## Claim C4 — early termination on the thank-you phrase -/

/-- C4: whenever the generated question contains the literal phrase
`Thank you so much for your help`, the loop stops right after appending
that question — the context is left as accumulated so far, and the only
call recorded for that turn is the question itself (no search-query
extraction, no search call, no expert answer), regardless of how many
turns remain; the section writer still runs on the accumulated context
(the empty context giving `String.intercalate "\n\n" [] = ""` when the
first question already contains the phrase). -/
theorem interview_thank_you_terminates :
    (∀ (env : InterviewEnv) (a : Analyst) (n : Nat) (messages : List ChatMsg)
        (context : List String),
      pyIn thankYouPhrase (env.genQuestion a messages) = true →
      interviewLoop env a (n + 1) messages context
        = (messages ++ [{ content := env.genQuestion a messages, name := some "analyst" }],
            context, [InterviewEvent.question (env.genQuestion a messages)])) ∧
    (∀ (env : InterviewEnv) (a : Analyst) (topic : String) (n : Nat),
      pyIn thankYouPhrase (env.genQuestion a [openingMessage topic]) = true →
      conduct_interview env a topic (n + 1)
        = (env.sectionLLM a "",
            [InterviewEvent.question (env.genQuestion a [openingMessage topic])])) := by
  constructor
  · intro env a n messages context h
    unfold interviewLoop
    simp [h]
  · intro env a topic n h
    unfold conduct_interview interviewLoop
    simp [h, String.intercalate]



/-- Witness for C4: with two turns allowed, the interview stops after the
single thank-you question and the section writer still runs. -/
theorem interview_thank_you_terminates_witness :
    conduct_interview envThanks analystAda "AI" 2
      = ("SEC", [InterviewEvent.question "Thank you so much for your help"]) := by
  have h := interview_thank_you_terminates.2 envThanks analystAda "AI" 1 (by decide)
  simpa [envThanks] using h

/-! ## Claim C5 — search failures are non-fatal -/

/-- When every search-tool invocation raises, the loop never extends the
context, never issues an expert-answer call, and never appends an expert
message. -/
lemma interviewLoop_all_search_fail (env : InterviewEnv) (a : Analyst)
    (hfail : ∀ q, ∃ e, env.searchTool q = Except.error e) :
    ∀ (n : Nat) (messages : List ChatMsg) (context : List String),
      (interviewLoop env a n messages context).2.1 = context ∧
      ∀ ev ∈ (interviewLoop env a n messages context).2.2,
        ∀ s, ev ≠ InterviewEvent.answer s := by
  intro n
  induction n with
  | zero =>
    intro messages context
    exact ⟨rfl, by intro ev hev s; simp [interviewLoop] at hev⟩
  | succ n ih =>
    intro messages context
    unfold interviewLoop
    by_cases h : pyIn thankYouPhrase (env.genQuestion a messages) = true
    · refine ⟨by simp [h], ?_⟩
      intro ev hev s
      simp [h] at hev
      simp [hev]
    · have hsearch : searchServiceSearch env.searchTool
          (env.genSearchQuery (messages ++ [⟨env.genQuestion a messages, some "analyst"⟩]))
          = [] := by
        obtain ⟨e, he⟩ := hfail
          (env.genSearchQuery (messages ++ [⟨env.genQuestion a messages, some "analyst"⟩]))
        simp [searchServiceSearch, he]
      have hfmt : format_search_results [] = "" := by simp [format_search_results]
      refine ⟨?_, ?_⟩
      · simp only [h, hsearch, hfmt]
        simp [(ih _ _).1]
      · intro ev hev s
        simp only [h, hsearch, hfmt] at hev
        simp at hev
        rcases hev with h1 | h1 | h1 | h1
        · simp [h1]
        · simp [h1]
        · simp [h1]
        · exact (ih _ _).2 ev h1 s

/-- C5: `SearchService.search` returns the empty list whenever the
underlying tool invocation raises; consequently, when every search fails,
`conduct_interview` still completes — no expert-answer call is issued, the
context stays empty — and the returned section is exactly the output of
the section-writer call (non-empty as soon as the section writer returns
non-empty text). -/
theorem search_failure_nonfatal :
    (∀ (tool : String → Except String (List SearchResult)) (q e : String),
      tool q = Except.error e → searchServiceSearch tool q = []) ∧
    (∀ (env : InterviewEnv) (a : Analyst) (topic : String) (maxTurns : Nat),
      (∀ q, ∃ e, env.searchTool q = Except.error e) →
      (conduct_interview env a topic maxTurns).1 = env.sectionLLM a "" ∧
      (∀ ev ∈ (conduct_interview env a topic maxTurns).2,
        ∀ s, ev ≠ InterviewEvent.answer s) ∧
      ((∀ ctx, env.sectionLLM a ctx ≠ "") →
        (conduct_interview env a topic maxTurns).1 ≠ "")) := by
  constructor
  · intro tool q e he
    simp [searchServiceSearch, he]
  · intro env a topic maxTurns hfail
    have h := interviewLoop_all_search_fail env a hfail maxTurns [openingMessage topic] []
    refine ⟨?_, ?_, ?_⟩
    · simp only [conduct_interview]
      rw [h.1]
      rfl
    · intro ev hev s
      simp only [conduct_interview] at hev
      exact h.2 ev hev s
    · intro hne
      simp only [conduct_interview]
      rw [h.1]
      exact hne ""


/-- Witness for C5: the failing tool yields an empty result list, and a
two-turn interview against the always-failing tool still returns the
section writer output, which is non-empty. -/
theorem search_failure_nonfatal_witness :
    searchServiceSearch (fun _ => Except.error "down") "q" = [] ∧
    (conduct_interview envSearchDown analystAda "AI" 2).1 = "SEC" ∧
    (conduct_interview envSearchDown analystAda "AI" 2).1 ≠ "" := by
  refine ⟨search_failure_nonfatal.1 (fun _ => Except.error "down") "q" "down" rfl, ?_, ?_⟩
  · have h := (search_failure_nonfatal.2 envSearchDown analystAda "AI" 2
      (fun q => ⟨"down", rfl⟩)).1
    simpa [envSearchDown] using h
  · exact (search_failure_nonfatal.2 envSearchDown analystAda "AI" 2
      (fun q => ⟨"down", rfl⟩)).2.2 (fun ctx => by simp [envSearchDown])

/-! ## Parallel-phase lemmas -/

/-- Processing a completion preserves the slot count. -/
lemma applyCompletion_length (interview : Analyst → Except String String)
    (analysts : List Analyst) (slots : List (Option String)) (idx : Nat) :
    (applyCompletion interview analysts slots idx).length = slots.length := by
  unfold applyCompletion
  cases analysts[idx]? with
  | none => rfl
  | some a => simp

/-- Folding completions preserves the slot count. -/
lemma foldl_applyCompletion_length (interview : Analyst → Except String String)
    (analysts : List Analyst) :
    ∀ (order : List Nat) (slots : List (Option String)),
      (order.foldl (applyCompletion interview analysts) slots).length = slots.length := by
  intro order
  induction order with
  | nil => intro slots; rfl
  | cons j rest ih =>
    intro slots
    simp only [List.foldl_cons]
    rw [ih, applyCompletion_length]

/-- A slot whose index never completes keeps its initial value. -/
lemma foldl_applyCompletion_not_mem (interview : Analyst → Except String String)
    (analysts : List Analyst) :
    ∀ (order : List Nat) (slots : List (Option String)) (i : Nat), i ∉ order →
      (order.foldl (applyCompletion interview analysts) slots)[i]? = slots[i]? := by
  intro order
  induction order with
  | nil => intro slots i _; rfl
  | cons j rest ih =>
    intro slots i hi
    have hij : i ≠ j := fun he => hi (he ▸ List.mem_cons_self j rest)
    have hir : i ∉ rest := fun hr => hi (List.mem_cons_of_mem j hr)
    simp only [List.foldl_cons]
    rw [ih _ i hir]
    unfold applyCompletion
    cases analysts[j]? with
    | none => rfl
    | some a => rw [List.getElem?_set_ne (fun he => hij he.symm)]

/-- A slot whose index completes at least once holds the outcome of its
analyst at the end (every write to a slot writes the same value, so the
last write wins and equals the first). -/
lemma foldl_applyCompletion_mem (interview : Analyst → Except String String)
    (analysts : List Analyst) :
    ∀ (order : List Nat) (slots : List (Option String)) (i : Nat) (a : Analyst),
      slots.length = analysts.length → analysts[i]? = some a → i ∈ order →
      (order.foldl (applyCompletion interview analysts) slots)[i]?
        = some (some (interviewOutcomeSection interview a)) := by
  intro order
  induction order with
  | nil => intro slots i a _ _ hi; simp at hi
  | cons j rest ih =>
    intro slots i a hlen ha hi
    simp only [List.foldl_cons]
    by_cases hir : i ∈ rest
    · exact ih _ i a (by rw [applyCompletion_length]; exact hlen) ha hir
    · have hij : i = j := by
        rcases List.mem_cons.mp hi with he | hr
        · exact he
        · exact absurd hr hir
      subst hij
      rw [foldl_applyCompletion_not_mem interview analysts rest _ i hir]
      unfold applyCompletion
      rw [ha]
      have hilt : i < slots.length := by
        rw [hlen]
        exact List.getElem?_eq_some.mp ha |>.choose
      simp [List.getElem?_set_self, hilt]

/-- General characterization of the slot array: slot `i` holds the outcome
of analyst `i` when index `i` appears in the completion order, and stays
unset otherwise. -/
lemma parallelConductSlots_eq_rangeMap (interview : Analyst → Except String String)
    (analysts : List Analyst) (order : List Nat) :
    parallelConductSlots interview analysts order
      = (List.range analysts.length).map (fun i =>
          if i ∈ order then (analysts[i]?).map (interviewOutcomeSection interview) else none) := by
  apply List.ext_getElem?
  intro i
  by_cases hi : i < analysts.length
  · have ha : analysts[i]? = some analysts[i] := List.getElem?_eq_getElem hi
    have hrange : (List.range analysts.length)[i]? = some i := by
      simp [List.getElem?_range, hi]
    by_cases ho : i ∈ order
    · rw [parallelConductSlots,
        foldl_applyCompletion_mem interview analysts order _ i analysts[i] (by simp) ha ho]
      rw [List.getElem?_map, hrange]
      simp [ho, ha]
    · rw [parallelConductSlots, foldl_applyCompletion_not_mem interview analysts order _ i ho]
      rw [List.getElem?_map, hrange]
      simp [ho, List.getElem?_replicate, hi]
  · have h1 : (parallelConductSlots interview analysts order).length ≤ i := by
      rw [parallelConductSlots, foldl_applyCompletion_length, List.length_replicate]
      omega
    have h2 : ((List.range analysts.length).map (fun i =>
        if i ∈ order then (analysts[i]?).map (interviewOutcomeSection interview)
        else none)).length ≤ i := by
      rw [List.length_map, List.length_range]
      omega
    rw [List.getElem?_eq_none h1, List.getElem?_eq_none h2]

/-- When the completion order is a permutation of all indices (each
submitted future is yielded exactly once), every slot is set and the
returned section list is the outcome of each analyst in original order. -/
lemma parallelConductInterviews_perm (interview : Analyst → Except String String)
    (analysts : List Analyst) (order : List Nat)
    (h : order.Perm (List.range analysts.length)) :
    parallelConductInterviews interview analysts order
      = analysts.map (interviewOutcomeSection interview) := by
  have hmem : ∀ i, i < analysts.length → i ∈ order := fun i hi =>
    h.mem_iff.mpr (List.mem_range.mpr hi)
  have hslots : parallelConductSlots interview analysts order
      = analysts.map (fun a => some (interviewOutcomeSection interview a)) := by
    rw [parallelConductSlots_eq_rangeMap]
    apply List.ext_getElem?
    intro i
    rw [List.getElem?_map, List.getElem?_map]
    by_cases hi : i < analysts.length
    · have ha : analysts[i]? = some analysts[i] := List.getElem?_eq_getElem hi
      rw [List.getElem?_range hi, ha]
      simp [hmem i hi, ha]
    · have h1 : (List.range analysts.length)[i]? = none := by
        apply List.getElem?_eq_none
        rw [List.length_range]
        omega
      have h2 : analysts[i]? = none := List.getElem?_eq_none (by omega)
      rw [h1, h2]
      rfl
  rw [parallelConductInterviews, hslots, List.filterMap_map]
  exact congrFun (List.filterMap_eq_map (interviewOutcomeSection interview)) analysts

/-! ## Claim C2 — analyst/section alignment in the parallel workflow -/

/-- C2: for every analyst list, every completion order that yields each
submitted future exactly once (a permutation of all indices), and every
pattern of per-interview failures (the `interview` oracle is arbitrary,
failures included), the section list returned by the parallel interview
phase has one entry per analyst and entry `i` is exactly the outcome
(section or error placeholder) of analyst `i`, regardless of completion
timing. -/
theorem parallel_sections_align (interview : Analyst → Except String String)
    (analysts : List Analyst) (order : List Nat)
    (h : order.Perm (List.range analysts.length)) :
    (parallelConductInterviews interview analysts order).length = analysts.length ∧
    ∀ (i : Nat) (hi : i < analysts.length),
      (parallelConductInterviews interview analysts order)[i]?
        = some (interviewOutcomeSection interview analysts[i]) := by
  rw [parallelConductInterviews_perm interview analysts order h]
  constructor
  · exact List.length_map analysts _
  · intro i hi
    rw [List.getElem?_map, List.getElem?_eq_getElem hi]
    rfl




/-- Witness for C2 at three analysts with completion order `[2, 0, 1]` and
one failing interview. -/
theorem parallel_sections_align_witness :
    (parallelConductInterviews interviewOneFailure [analystAda, analystBoom, analystCarl]
        [2, 0, 1]).length = 3 ∧
    (parallelConductInterviews interviewOneFailure [analystAda, analystBoom, analystCarl]
        [2, 0, 1])[1]?
      = some (interviewOutcomeSection interviewOneFailure analystBoom) := by
  have h := parallel_sections_align interviewOneFailure
    [analystAda, analystBoom, analystCarl] [2, 0, 1] (by decide)
  exact ⟨h.1, h.2 1 (by decide)⟩

/-! ## Claim C7 — what the parallel run hands back -/


/-- Counterexample to C7 as stated: the code filters only the SECTION list
(backend.py line 233); the analyst list is handed back unchanged
(backend.py lines 77-82).  With one analyst and an empty completion order
the single slot stays unset: the code returns the analyst together with an
empty section list, while filtering both lists, as the claim states, would
also drop the analyst. -/
theorem parallel_handback_not_both_filtered :
    parallelRunHandBack interviewAlwaysOk [analystAda] []
      ≠ handBackPerClaimC7 [analystAda] (parallelConductSlots interviewAlwaysOk [analystAda] [])
    ∧ parallelRunHandBack interviewAlwaysOk [analystAda] [] = ([analystAda], []) := by
  constructor
  · decide
  · decide

/-- C7 as amended: the parallel run hands the analyst list back unchanged,
and only the section list is filtered — its length is exactly the number of
distinct analyst indices that completed, i.e. unset slots are dropped. -/
theorem parallel_handback_amended (interview : Analyst → Except String String)
    (analysts : List Analyst) (order : List Nat) :
    (parallelRunHandBack interview analysts order).1 = analysts ∧
    (parallelRunHandBack interview analysts order).2.length
      = ((List.range analysts.length).filter (fun i => decide (i ∈ order))).length := by
  constructor
  · rfl
  · show (parallelConductInterviews interview analysts order).length = _
    rw [parallelConductInterviews, parallelConductSlots_eq_rangeMap, List.filterMap_map,
      List.length_filterMap_eq_countP, List.countP_eq_length_filter]
    congr 1
    apply List.filter_congr
    intro i hi
    have hlt : i < analysts.length := List.mem_range.mp hi
    have ha : analysts[i]? = some analysts[i] := List.getElem?_eq_getElem hlt
    by_cases ho : i ∈ order
    · simp [ho, ha]
    · simp [ho]

/-! ## Sequential-phase lemmas -/

/-- With benign callbacks, one loop iteration contributes exactly the
outcome of its interview. -/
lemma seqStepSections_benign (env : SeqEnv)
    (hprog : ∀ p m, env.onProgress p m = Except.ok ())
    (hic : ∀ n s, env.onInterviewComplete n s = Except.ok ())
    (hsc : ∀ s, env.onSectionComplete s = Except.ok ())
    (total i : Nat) (a : Analyst) :
    seqStepSections env total i a = [interviewOutcomeSection env.interview a] := by
  unfold seqStepSections interviewOutcomeSection
  simp only [hprog]
  rcases h2 : env.interview a with e | s
  · rfl
  · simp only [hic, hsc]

/-- With benign callbacks, the sequential loop returns exactly the outcome
of each interview, in the original analyst order. -/
lemma conductInterviewsSeqAux_sections_benign (env : SeqEnv)
    (hprog : ∀ p m, env.onProgress p m = Except.ok ())
    (hic : ∀ n s, env.onInterviewComplete n s = Except.ok ())
    (hsc : ∀ s, env.onSectionComplete s = Except.ok ())
    (total : Nat) :
    ∀ (analysts : List Analyst) (i : Nat),
      (conductInterviewsSeqAux env total i analysts).1
        = analysts.map (interviewOutcomeSection env.interview) := by
  intro analysts
  induction analysts with
  | nil => intro i; rfl
  | cons a rest ih =>
    intro i
    simp only [conductInterviewsSeqAux]
    rw [seqStepSections_benign env hprog hic hsc total i a, ih (i + 1)]
    rfl

/-- The progress values delivered by the sequential loop are
`30 + j * 40 / total` for the consecutive indices `j`, whatever the
interviews and callbacks do. -/
lemma conductInterviewsSeqAux_trace (env : SeqEnv) (total : Nat) :
    ∀ (analysts : List Analyst) (i : Nat),
      (conductInterviewsSeqAux env total i analysts).2
        = (List.range' i analysts.length).map (fun j => 30 + j * 40 / total) := by
  intro analysts
  induction analysts with
  | nil => intro i; rfl
  | cons a rest ih =>
    intro i
    simp only [conductInterviewsSeqAux]
    rw [List.length_cons, List.range'_succ, List.map_cons, ih (i + 1)]

/-- Every loop iteration contributes at least one and at most two
sections. -/
lemma seqStepSections_length (env : SeqEnv) (total i : Nat) (a : Analyst) :
    1 ≤ (seqStepSections env total i a).length ∧ (seqStepSections env total i a).length ≤ 2 := by
  unfold seqStepSections
  rcases h1 : env.onProgress (30 + i * 40 / total) (progressMessage a i total) with e | u
  · simp
  · simp only
    rcases h2 : env.interview a with e | s
    · simp
    · simp only
      rcases h3 : env.onInterviewComplete a.name s with e | u2
      · simp
      · simp only
        rcases h4 : env.onSectionComplete s with e | u3
        · simp
        · simp

/-- The sequential loop contributes at least one section per analyst. -/
lemma conductInterviewsSeqAux_length_ge (env : SeqEnv) (total : Nat) :
    ∀ (analysts : List Analyst) (i : Nat),
      analysts.length ≤ (conductInterviewsSeqAux env total i analysts).1.length := by
  intro analysts
  induction analysts with
  | nil => intro i; simp
  | cons a rest ih =>
    intro i
    simp only [conductInterviewsSeqAux, List.length_cons, List.length_append]
    have h1 := (seqStepSections_length env total i a).1
    have h2 := ih (i + 1)
    omega

/-- If some iteration contributes two sections, the loop returns strictly
more sections than analysts. -/
lemma conductInterviewsSeqAux_length_gt (env : SeqEnv) (total : Nat) :
    ∀ (analysts : List Analyst) (start : Nat),
      (∃ (k : Nat) (hk : k < analysts.length),
        (seqStepSections env total (start + k) analysts[k]).length = 2) →
      analysts.length < (conductInterviewsSeqAux env total start analysts).1.length := by
  intro analysts
  induction analysts with
  | nil =>
    intro start h
    obtain ⟨k, hk, _⟩ := h
    simp at hk
  | cons a rest ih =>
    intro start h
    simp only [conductInterviewsSeqAux, List.length_cons, List.length_append]
    obtain ⟨k, hk, h2⟩ := h
    cases k with
    | zero =>
      have ha : (a :: rest)[0] = a := rfl
      rw [ha, Nat.add_zero] at h2
      have hge := conductInterviewsSeqAux_length_ge env total rest (start + 1)
      omega
    | succ n =>
      have hn : n < rest.length := by simpa using hk
      have hidx : (a :: rest)[n + 1] = rest[n] := by simp
      have hsum : start + (n + 1) = (start + 1) + n := by omega
      rw [hidx, hsum] at h2
      have hlt := ih (start + 1) ⟨n, hn, h2⟩
      have h1 := (seqStepSections_length env total start a).1
      omega

/-- A fully successful run: benign callbacks and a succeeding report writer
give the sections of the interview outcomes in analyst order, the written
report, and the canonical progress trace. -/
lemma runResearchSeq_ok (env : SeqEnv) (analysts : List Analyst) (topic : String)
    (hprog : ∀ p m, env.onProgress p m = Except.ok ())
    (hac : ∀ l, env.onAnalystCreated l = Except.ok ())
    (hic : ∀ n s, env.onInterviewComplete n s = Except.ok ())
    (hsc : ∀ s, env.onSectionComplete s = Except.ok ())
    (rep : String)
    (hrep : env.writeReport (analysts.map (interviewOutcomeSection env.interview)) topic
      = Except.ok rep) :
    runResearchSeq env analysts topic
      = (Except.ok (analysts, analysts.map (interviewOutcomeSection env.interview), rep),
          [10, 25, 30]
            ++ (List.range' 0 analysts.length).map (fun j => 30 + j * 40 / analysts.length)
            ++ [70, 85, 100]) := by
  have hsec : (conductInterviewsSeq env analysts).1
      = analysts.map (interviewOutcomeSection env.interview) := by
    unfold conductInterviewsSeq
    exact conductInterviewsSeqAux_sections_benign env hprog hic hsc analysts.length analysts 0
  have htr : (conductInterviewsSeq env analysts).2
      = (List.range' 0 analysts.length).map (fun j => 30 + j * 40 / analysts.length) := by
    unfold conductInterviewsSeq
    exact conductInterviewsSeqAux_trace env analysts.length analysts 0
  unfold runResearchSeq
  simp only [hprog, hac, hsec, htr, hrep]

/-- The progress trace of any run whose outcome is a success is the
canonical one. -/
lemma runResearchSeq_trace_of_ok (env : SeqEnv) (analysts : List Analyst) (topic : String)
    (hok : ∃ r, (runResearchSeq env analysts topic).1 = Except.ok r) :
    (runResearchSeq env analysts topic).2
      = [10, 25, 30] ++ (conductInterviewsSeq env analysts).2 ++ [70, 85, 100] := by
  obtain ⟨r, hr⟩ := hok
  unfold runResearchSeq at hr ⊢
  rcases h1 : env.onProgress 10 "Generating research analysts..." with e | u1
  · simp only [h1] at hr
    exact absurd hr (by simp)
  · simp only [h1] at hr ⊢
    rcases h2 : env.onAnalystCreated analysts with e | u2
    · simp only [h2] at hr
      exact absurd hr (by simp)
    · simp only [h2] at hr ⊢
      rcases h3 : env.onProgress 25 ("Generated " ++ toString analysts.length ++ " analysts")
        with e | u3
      · simp only [h3] at hr
        exact absurd hr (by simp)
      · simp only [h3] at hr ⊢
        rcases h4 : env.onProgress 30 "Starting research interviews..." with e | u4
        · simp only [h4] at hr
          exact absurd hr (by simp)
        · simp only [h4] at hr ⊢
          rcases h5 : env.onProgress 70 "All interviews completed" with e | u5
          · simp only [h5] at hr
            exact absurd hr (by simp)
          · simp only [h5] at hr ⊢
            rcases h6 : env.onProgress 85 "Generating final report..." with e | u6
            · simp only [h6] at hr
              exact absurd hr (by simp)
            · simp only [h6] at hr ⊢
              rcases h7 : env.writeReport (conductInterviewsSeq env analysts).1 topic with e | rep
              · simp only [h7] at hr
                exact absurd hr (by simp)
              · simp only [h7] at hr ⊢
                rcases h8 : env.onProgress 100 "Research completed successfully!" with e | u8
                · simp only [h8] at hr
                  exact absurd hr (by simp)
                · simp only [h8]

/-- Per-analyst progress values stay in the 30-70 band. -/
lemma progress_value_band (j n : Nat) (hj : j < n) :
    30 ≤ 30 + j * 40 / n ∧ 30 + j * 40 / n ≤ 70 := by
  refine ⟨Nat.le_add_right 30 _, ?_⟩
  have h2 : j * 40 < 40 * n := by
    have : j * 40 < n * 40 := Nat.mul_lt_mul_of_lt_of_le hj (le_refl 40) (by omega)
    omega
  have := (Nat.div_lt_iff_lt_mul (by omega : 0 < n)).mpr h2
  omega

/-! ## Claim C6 — progress values of a successful sequential run -/

/-- C6: for every successful sequential run with at least one analyst, the
progress values delivered to the progress callback are exactly
`10, 25, 30`, then `30 + i * 40 / total` for each analyst index `i` in
order, then `70, 85, 100`; the sequence is non-decreasing and its final
value is exactly 100. -/
theorem progress_trace_monotone_ends_100 (env : SeqEnv) (analysts : List Analyst)
    (topic : String) (hpos : 0 < analysts.length)
    (hok : ∃ r, (runResearchSeq env analysts topic).1 = Except.ok r) :
    (runResearchSeq env analysts topic).2
      = [10, 25, 30]
          ++ (List.range analysts.length).map (fun i => 30 + i * 40 / analysts.length)
          ++ [70, 85, 100] ∧
    List.Pairwise (· ≤ ·) (runResearchSeq env analysts topic).2 ∧
    (runResearchSeq env analysts topic).2.getLast? = some 100 := by
  have htr : (conductInterviewsSeq env analysts).2
      = (List.range analysts.length).map (fun i => 30 + i * 40 / analysts.length) := by
    unfold conductInterviewsSeq
    rw [conductInterviewsSeqAux_trace env analysts.length analysts 0, List.range_eq_range']
  have hshape : (runResearchSeq env analysts topic).2
      = [10, 25, 30]
          ++ (List.range analysts.length).map (fun i => 30 + i * 40 / analysts.length)
          ++ [70, 85, 100] := by
    rw [runResearchSeq_trace_of_ok env analysts topic hok, htr]
  refine ⟨hshape, ?_, ?_⟩
  · rw [hshape]
    have hmid : List.Pairwise (· ≤ ·)
        ((List.range analysts.length).map (fun i => 30 + i * 40 / analysts.length)) := by
      rw [List.pairwise_map]
      refine (List.pairwise_lt_range analysts.length).imp ?_
      intro a b hab
      have : a * 40 / analysts.length ≤ b * 40 / analysts.length :=
        Nat.div_le_div_right (Nat.mul_le_mul_right 40 (Nat.le_of_lt hab))
      omega
    rw [List.append_assoc, List.pairwise_append]
    refine ⟨by decide, ?_, ?_⟩
    · rw [List.pairwise_append]
      refine ⟨hmid, by decide, ?_⟩
      intro x hx y hy
      obtain ⟨i, hi, hxeq⟩ := List.mem_map.mp hx
      have hiband := progress_value_band i analysts.length (List.mem_range.mp hi)
      have hy3 : y = 70 ∨ y = 85 ∨ y = 100 := by simpa using hy
      omega
    · intro x hx y hy
      have hx3 : x = 10 ∨ x = 25 ∨ x = 30 := by simpa using hx
      rcases List.mem_append.mp hy with hy1 | hy2
      · obtain ⟨i, hi, hyeq⟩ := List.mem_map.mp hy1
        have hiband := progress_value_band i analysts.length (List.mem_range.mp hi)
        omega
      · have hy3 : y = 70 ∨ y = 85 ∨ y = 100 := by simpa using hy2
        omega
  · rw [hshape, List.append_assoc]
    rw [List.getLast?_append_of_ne_nil _ (by simp),
      List.getLast?_append_of_ne_nil _ (by simp)]
    rfl


/-- Witness for C6 at a concrete one-analyst run. -/
theorem progress_trace_monotone_ends_100_witness :
    (runResearchSeq envSeqAllOk [analystAda] "AI").2
      = [10, 25, 30] ++ (List.range 1).map (fun i => 30 + i * 40 / 1) ++ [70, 85, 100] ∧
    List.Pairwise (· ≤ ·) (runResearchSeq envSeqAllOk [analystAda] "AI").2 ∧
    (runResearchSeq envSeqAllOk [analystAda] "AI").2.getLast? = some 100 :=
  progress_trace_monotone_ends_100 envSeqAllOk [analystAda] "AI" (by decide)
    ⟨([analystAda], ["S-Ada"], "REPORT"), rfl⟩

/-! ## Claim C1 — one failing interview does not abort the run -/

/-- C1: with benign callbacks and a succeeding report writer, if the
interview of analyst `j` raises (message `e`) while every other interview
succeeds, the sequential run still completes: the section list has one
entry per analyst, entry `j` is exactly the literal error placeholder of
backend.py line 149, every other entry is exactly the section its
interview returned, and the report writer is still invoked on those
sections to produce the final report.  The parallel interview phase
behaves the same for every completion order. -/
theorem single_interview_failure_run_continues (env : SeqEnv) (analysts : List Analyst)
    (topic : String) (j : Nat) (hj : j < analysts.length) (e : String)
    (hprog : ∀ p m, env.onProgress p m = Except.ok ())
    (hac : ∀ l, env.onAnalystCreated l = Except.ok ())
    (hic : ∀ n s, env.onInterviewComplete n s = Except.ok ())
    (hsc : ∀ s, env.onSectionComplete s = Except.ok ())
    (hwr : ∀ secs t, ∃ rep, env.writeReport secs t = Except.ok rep)
    (herr : env.interview analysts[j] = Except.error e)
    (hok : ∀ (i : Nat) (hi : i < analysts.length), i ≠ j →
      ∃ s, env.interview analysts[i] = Except.ok s) :
    (∃ r : List Analyst × List String × String,
      (runResearchSeq env analysts topic).1 = Except.ok r ∧
      r.2.1.length = analysts.length ∧
      r.2.1[j]? = some (interviewErrorSection analysts[j] e) ∧
      (∀ (i : Nat) (hi : i < analysts.length) (s : String),
        env.interview analysts[i] = Except.ok s → r.2.1[i]? = some s) ∧
      env.writeReport r.2.1 topic = Except.ok r.2.2) ∧
    (∀ order : List Nat, order.Perm (List.range analysts.length) →
      (parallelConductInterviews env.interview analysts order).length = analysts.length ∧
      (parallelConductInterviews env.interview analysts order)[j]?
        = some (interviewErrorSection analysts[j] e) ∧
      (∀ (i : Nat) (hi : i < analysts.length) (s : String),
        env.interview analysts[i] = Except.ok s →
        (parallelConductInterviews env.interview analysts order)[i]? = some s)) := by
  obtain ⟨rep, hrep⟩ := hwr (analysts.map (interviewOutcomeSection env.interview)) topic
  have hrun := runResearchSeq_ok env analysts topic hprog hac hic hsc rep hrep
  constructor
  · refine ⟨(analysts, analysts.map (interviewOutcomeSection env.interview), rep), ?_, ?_, ?_, ?_, ?_⟩
    · rw [hrun]
    · exact List.length_map analysts _
    · rw [List.getElem?_map, List.getElem?_eq_getElem hj]
      simp [interviewOutcomeSection, herr]
    · intro i hi s hs
      rw [List.getElem?_map, List.getElem?_eq_getElem hi]
      simp [interviewOutcomeSection, hs]
    · exact hrep
  · intro order horder
    rw [parallelConductInterviews_perm env.interview analysts order horder]
    refine ⟨List.length_map analysts _, ?_, ?_⟩
    · rw [List.getElem?_map, List.getElem?_eq_getElem hj]
      simp [interviewOutcomeSection, herr]
    · intro i hi s hs
      rw [List.getElem?_map, List.getElem?_eq_getElem hi]
      simp [interviewOutcomeSection, hs]


/-- Witness for C1: two analysts of which exactly the second fails. -/
theorem single_interview_failure_run_continues_witness :
    ∃ r : List Analyst × List String × String,
      (runResearchSeq envSeqOneFailure [analystAda, analystBoom] "AI").1 = Except.ok r ∧
      r.2.1.length = 2 ∧
      r.2.1[1]? = some (interviewErrorSection analystBoom "boom") := by
  obtain ⟨⟨r, hrun, hlen, hj, _, _⟩, _⟩ :=
    single_interview_failure_run_continues envSeqOneFailure [analystAda, analystBoom] "AI"
      1 (by decide) "boom"
      (fun _ _ => rfl) (fun _ => rfl) (fun _ _ => rfl) (fun _ => rfl)
      (fun secs t => ⟨"R:" ++ String.intercalate "|" secs, rfl⟩)
      rfl
      (fun i hi hne => by
        match i with
        | 0 => exact ⟨"S-Ada", rfl⟩
        | 1 => exact absurd rfl hne
        | n + 2 => exact absurd hi (by simp))
  exact ⟨r, hrun, hlen, hj⟩

/-! ## Claim C10 — callbacks that raise after a successful interview -/

/-- When the two completion callbacks never raise, each iteration
contributes exactly one section (the interview outcome, or a placeholder
carrying a progress-callback failure). -/
lemma seqStepSections_length_one (env : SeqEnv)
    (hic : ∀ n s, env.onInterviewComplete n s = Except.ok ())
    (hsc : ∀ s, env.onSectionComplete s = Except.ok ())
    (total i : Nat) (a : Analyst) :
    (seqStepSections env total i a).length = 1 := by
  unfold seqStepSections
  rcases h1 : env.onProgress (30 + i * 40 / total) (progressMessage a i total) with e | u
  · rfl
  · simp only
    rcases h2 : env.interview a with e | s
    · rfl
    · simp only [hic, hsc]
      rfl

/-- Under never-raising completion callbacks, the loop yields exactly one
section per analyst. -/
lemma conductInterviewsSeqAux_length_eq (env : SeqEnv)
    (hic : ∀ n s, env.onInterviewComplete n s = Except.ok ())
    (hsc : ∀ s, env.onSectionComplete s = Except.ok ())
    (total : Nat) :
    ∀ (analysts : List Analyst) (i : Nat),
      (conductInterviewsSeqAux env total i analysts).1.length = analysts.length := by
  intro analysts
  induction analysts with
  | nil => intro i; rfl
  | cons a rest ih =>
    intro i
    simp only [conductInterviewsSeqAux, List.length_append, List.length_cons]
    rw [seqStepSections_length_one env hic hsc total i a, ih (i + 1)]
    omega

/-- C10: (a) when `on_interview_complete` and `on_section_complete` never
raise, the sequential interview loop returns exactly one section per
analyst, and (with a benign progress callback) entry `i` is the outcome of
analyst `i` — its section on success, the error placeholder on failure;
(b) when one of those two callbacks raises after a successful interview,
the handler catches it and appends the placeholder after the
already-appended section, so that analyst contributes two entries and
the section list becomes strictly longer than the analyst list. -/
theorem seq_sections_per_analyst_and_callback_overflow (env : SeqEnv) :
    (∀ analysts : List Analyst,
      (∀ n s, env.onInterviewComplete n s = Except.ok ()) →
      (∀ s, env.onSectionComplete s = Except.ok ()) →
      (conductInterviewsSeq env analysts).1.length = analysts.length) ∧
    (∀ analysts : List Analyst,
      (∀ p m, env.onProgress p m = Except.ok ()) →
      (∀ n s, env.onInterviewComplete n s = Except.ok ()) →
      (∀ s, env.onSectionComplete s = Except.ok ()) →
      ∀ (i : Nat) (hi : i < analysts.length),
        (conductInterviewsSeq env analysts).1[i]?
          = some (interviewOutcomeSection env.interview analysts[i])) ∧
    (∀ (total i : Nat) (a : Analyst) (s e : String),
      env.onProgress (30 + i * 40 / total) (progressMessage a i total) = Except.ok () →
      env.interview a = Except.ok s →
      (env.onInterviewComplete a.name s = Except.error e ∨
        (env.onInterviewComplete a.name s = Except.ok () ∧
          env.onSectionComplete s = Except.error e)) →
      seqStepSections env total i a = [s, interviewErrorSection a e]) ∧
    (∀ analysts : List Analyst,
      (∃ (k : Nat) (hk : k < analysts.length),
        (seqStepSections env analysts.length k analysts[k]).length = 2) →
      analysts.length < (conductInterviewsSeq env analysts).1.length) := by
  refine ⟨?_, ?_, ?_, ?_⟩
  · intro analysts hic hsc
    exact conductInterviewsSeqAux_length_eq env hic hsc analysts.length analysts 0
  · intro analysts hprog hic hsc i hi
    unfold conductInterviewsSeq
    rw [conductInterviewsSeqAux_sections_benign env hprog hic hsc analysts.length analysts 0]
    rw [List.getElem?_map, List.getElem?_eq_getElem hi]
    rfl
  · intro total i a s e hp hint hdisj
    unfold seqStepSections
    simp only [hp, hint]
    rcases hdisj with h | ⟨h1, h2⟩
    · simp only [h]
    · simp only [h1, h2]
  · intro analysts hex
    unfold conductInterviewsSeq
    apply conductInterviewsSeqAux_length_gt env analysts.length analysts 0
    obtain ⟨k, hk, h2⟩ := hex
    exact ⟨k, hk, by simpa using h2⟩


/-- Witness for C10: with benign callbacks two analysts give two sections in
order; with a raising interview-complete callback one analyst contributes
both its section and a placeholder, so the list outgrows the analysts. -/
theorem seq_sections_per_analyst_and_callback_overflow_witness :
    (conductInterviewsSeq envSeqOneFailure [analystAda, analystBoom]).1.length = 2 ∧
    (conductInterviewsSeq envSeqOneFailure [analystAda, analystBoom]).1[1]?
      = some (interviewOutcomeSection envSeqOneFailure.interview analystBoom) ∧
    seqStepSections envCallbackRaises 1 0 analystAda
      = ["S-Ada", interviewErrorSection analystAda "cb"] ∧
    1 < (conductInterviewsSeq envCallbackRaises [analystAda]).1.length := by
  refine ⟨?_, ?_, ?_, ?_⟩
  · exact (seq_sections_per_analyst_and_callback_overflow envSeqOneFailure).1
      [analystAda, analystBoom] (fun _ _ => rfl) (fun _ => rfl)
  · exact (seq_sections_per_analyst_and_callback_overflow envSeqOneFailure).2.1
      [analystAda, analystBoom] (fun _ _ => rfl) (fun _ _ => rfl) (fun _ => rfl) 1 (by decide)
  · exact (seq_sections_per_analyst_and_callback_overflow envCallbackRaises).2.2.1
      1 0 analystAda "S-Ada" "cb" rfl rfl (Or.inl rfl)
  · exact (seq_sections_per_analyst_and_callback_overflow envCallbackRaises).2.2.2
      [analystAda] ⟨0, by decide, rfl⟩
